import Mathlib

/-!
Shallow embedding of the FaissIndexer orchestration layer of src/executor.py:
offset-map and tombstone bookkeeping, the write buffer, the insert, update and
delete request handlers, and the search-time merge.  The external collaborators
are modelled by their documented interface behaviour: the faiss ANN engine is
an append-only list of vectors (searched through an oracle supplied as an
argument), the lmdb key-value store is an association list with unique keys
(put returns false only when the key exists and overwrite is false; replace
stores unconditionally and returns the previous value; a transaction commits on
normal exit and rolls the store back when an exception escapes the block), and
a jina Document built from an absent buffer is an empty document carrying a
fresh auto-generated id.  Embeddings and distances are opaque integers: no
claim depends on float arithmetic, only on how values flow through the code.
Python exceptions are modelled with an explicit error type.
-/

namespace FaissIndexer

/-- Document identifiers. The constructor for a caller-supplied string id is
separate from the constructor modelling the auto-generated random id that a
jina Document created from an absent buffer receives, because a random 128-bit
id collides with no stored id. -/
inductive DocId where
  | real (s : String)
  | fresh (n : Nat)
deriving DecidableEq, Repr

/-- Embedding vectors, with opaque integer components. -/
abbrev Vec := List Int

/-- A document record: its id and its embedding. Payload fields are opaque and
play no role in any claim, so they are omitted. -/
structure Doc where
  id : DocId
  embedding : Vec
deriving DecidableEq, Repr

/-- Association-list lookup: the value of the first pair whose key matches. -/
def lookupA {α β : Type} [DecidableEq α] : List (α × β) → α → Option β
  | [], _ => none
  | (k, v) :: t, x => if k = x then some v else lookupA t x

/-- Association-list store: replace the first pair with the given key in place,
or append a new pair at the end.  This is both the lmdb write and the Python
dict/OrderedDict assignment d[k] = v. -/
def setA {α β : Type} [DecidableEq α] : List (α × β) → α → β → List (α × β)
  | [], x, w => [(x, w)]
  | (k, v) :: t, x, w => if k = x then (x, w) :: t else (k, v) :: setA t x w

/-- Association-list removal of a key (lmdb keys are unique, so removing every
pair with the key agrees with lmdb delete on reachable stores). -/
def removeA {α β : Type} [DecidableEq α] (l : List (α × β)) (x : α) : List (α × β) :=
  l.filter (fun kv => decide (¬ kv.1 = x))

/-- The lmdb environment holding serialized documents (`self._kv_storage`).
Serialization round-trips, so values are stored as documents directly. -/
abbrev Store := List (DocId × Doc)

/-- lmdb Transaction.put: returns false and leaves the store unchanged only
when the key is already present and overwrite is false; otherwise it writes
and returns true (the key-existed case with overwrite=True still returns
true, per the py-lmdb API). -/
def lmdbPut (store : Store) (k : DocId) (v : Doc) (overwrite : Bool) : Bool × Store :=
  match lookupA store k, overwrite with
  | some _, false => (false, store)
  | _, _ => (true, setA store k v)

/-- lmdb Transaction.replace: stores the value unconditionally and returns the
previous value when the key existed. -/
def lmdbReplace (store : Store) (k : DocId) (v : Doc) : Option Doc × Store :=
  (lookupA store k, setA store k v)

/-- lmdb Transaction.delete: returns whether the key existed. -/
def lmdbDelete (store : Store) (k : DocId) : Bool × Store :=
  ((lookupA store k).isSome, removeA store k)

/-- The `self._metas` dictionary of line 51 of executor.py. -/
structure Metas where
  doc_ids : List DocId
  doc_id_to_offset : List (DocId × Nat)
  delete_marks : List Nat
deriving DecidableEq, Repr

/-- The mutable state of a FaissIndexer instance: the configured metric
string, the metas bookkeeping, the lmdb store, the write buffer
(`self._buffer_indexer`) and the vectors held by the append-only faiss
engine (`self._vec_indexer`, whose ntotal is the length of the list). -/
structure IndexerState where
  metric : String
  metas : Metas
  storage : Store
  buffer : List Doc
  engine : List Vec
deriving DecidableEq, Repr

/-- Python exceptions raised by the handlers. -/
inductive PyErr where
  | valueError (i : DocId)
  | keyError (i : DocId)
  | indexError
  | attributeError
deriving DecidableEq, Repr

/-- Property total_docs: the engine ntotal. -/
def total_docs (st : IndexerState) : Nat :=
  st.engine.length

/-- Property total_deletes: the sum of the delete marks. -/
def total_deletes (st : IndexerState) : Nat :=
  st.metas.delete_marks.sum

/-- Property size: live document count. -/
def size (st : IndexerState) : Nat :=
  total_docs st - total_deletes st

/-- The faiss metric constants used by the constructor. -/
inductive MetricType where
  | METRIC_L2
  | METRIC_INNER_PRODUCT
deriving DecidableEq, Repr

/-- Property metric_type (lines 276-295): starts from METRIC_L2, switches to
METRIC_INNER_PRODUCT for the inner_product and cosine metrics, and for a
metric outside the recognized set only logs a warning and keeps METRIC_L2. -/
def metric_type (metric : String) : MetricType :=
  if metric = "inner_product" then .METRIC_INNER_PRODUCT
  else if metric = "cosine" then .METRIC_INNER_PRODUCT
  else .METRIC_L2

/-- The metas loop at the end of _add_vecs_with_ids (lines 259-262): walk the
doc ids, appending each to doc_ids, appending a zero delete mark, and storing
the running index in doc_id_to_offset. -/
def recordOffsets : Metas → Nat → List DocId → Metas
  | ms, _, [] => ms
  | ms, base, d :: t =>
      recordOffsets
        ⟨ms.doc_ids ++ [d], setA ms.doc_id_to_offset d base, ms.delete_marks ++ [0]⟩
        (base + 1) t

/-- Method _add_vecs_with_ids (lines 242-262).  The vectors are appended to the
engine first; the code then reads self.total_docs, which at that point is the
engine size after the append, and assigns offsets starting there.  The
normalize argument stands for faiss.normalize_L2, applied when the metric is
cosine. -/
def add_vecs_with_ids (normalize : Vec → Vec) (st : IndexerState)
    (embeddings : List Vec) (doc_ids : List DocId) : IndexerState :=
  if doc_ids.length = 0 then st
  else
    let embs := if st.metric = "cosine" then embeddings.map normalize else embeddings
    let engine2 := st.engine ++ embs
    { st with engine := engine2, metas := recordOffsets st.metas engine2.length doc_ids }

/-- The per-document loop of update (lines 169-177): replace the store record;
when the id did not previously exist, raise ValueError, which ends the batch
(the surrounding write transaction then aborts, rolling the store back, while
the in-memory buffer keeps the appends already made); otherwise append the
updated document to the write buffer. -/
def updateLoop (store : Store) (buffer : List Doc) :
    List Doc → Except (DocId × List Doc) (Store × List Doc)
  | [] => .ok (store, buffer)
  | d :: t =>
    match lmdbReplace store d.id d with
    | (none, _) => .error (d.id, buffer)
    | (some _, store2) => updateLoop store2 (buffer ++ [d]) t

/-- Request handler update (lines 157-177).  On the error path the transaction
abort discards the store writes of the batch, so the escaping state keeps the
original store and only the buffer appends made before the failure. -/
def update (st : IndexerState) (docs : List Doc) :
    Except (PyErr × IndexerState) IndexerState :=
  match updateLoop st.storage st.buffer docs with
  | .ok (store2, buffer2) => .ok { st with storage := store2, buffer := buffer2 }
  | .error (i, buffer2) => .error (.valueError i, { st with buffer := buffer2 })

/-- The per-document loop of index (lines 99-110): put with overwrite=True;
when put reports the value as written the embedding and id are queued for the
engine, otherwise the document is collected for the update path. -/
def indexLoop (store : Store) (embs : List Vec) (ids : List DocId) (upd : List Doc) :
    List Doc → Store × List Vec × List DocId × List Doc
  | [] => (store, embs, ids, upd)
  | d :: t =>
    match lmdbPut store d.id d true with
    | (true, store2) => indexLoop store2 (embs ++ [d.embedding]) (ids ++ [d.id]) upd t
    | (false, store2) => indexLoop store2 embs ids (upd ++ [d]) t

/-- Request handler index (lines 82-114): store every document, queue the ones
reported as newly written for _add_vecs_with_ids, then route the rest through
update. -/
def index (normalize : Vec → Vec) (st : IndexerState) (docs : List Doc) :
    Except (PyErr × IndexerState) IndexerState :=
  let r := indexLoop st.storage [] [] [] docs
  let st1 := add_vecs_with_ids normalize { st with storage := r.1 } r.2.1 r.2.2.1
  update st1 r.2.2.2

/-- Removal of a document id from the write buffer (line 198). -/
def bufRemove (buffer : List Doc) (k : DocId) : List Doc :=
  buffer.filter (fun b => decide (¬ b.id = k))

/-- The per-document loop of delete (lines 190-202): delete the store record;
when it existed, look up the offset (a missing dict entry raises KeyError),
set the delete mark at that offset (an out-of-range list index raises
IndexError), and drop the id from the write buffer; when it did not exist,
log a warning with the id and continue.  The log accumulator records the
warned ids.  An escaping exception carries the in-memory metas and buffer
reached so far; the store writes are rolled back by the transaction abort. -/
def deleteLoop (ms : Metas) (store : Store) (buffer : List Doc) (log : List DocId) :
    List Doc → Except (PyErr × Metas × List Doc) (Metas × Store × List Doc × List DocId)
  | [] => .ok (ms, store, buffer, log)
  | d :: t =>
    match lmdbDelete store d.id with
    | (true, store2) =>
      match lookupA ms.doc_id_to_offset d.id with
      | none => .error (.keyError d.id, ms, buffer)
      | some idx =>
        if idx < ms.delete_marks.length then
          deleteLoop ⟨ms.doc_ids, ms.doc_id_to_offset, ms.delete_marks.set idx 1⟩
            store2 (bufRemove buffer d.id) log t
        else .error (.indexError, ms, buffer)
    | (false, store2) => deleteLoop ms store2 buffer (log ++ [d.id]) t

/-- Request handler delete (lines 179-202), returning the updated state and
the list of ids warned about as not found. -/
def delete (st : IndexerState) (docs : List Doc) :
    Except (PyErr × IndexerState) (IndexerState × List DocId) :=
  match deleteLoop st.metas st.storage st.buffer [] docs with
  | .ok (ms2, store2, buffer2, log) =>
      .ok ({ st with metas := ms2, storage := store2, buffer := buffer2 }, log)
  | .error (e, ms2, buffer2) => .error (e, { st with metas := ms2, buffer := buffer2 })

/-- A jina Document constructed from an absent buffer: empty embedding and an
auto-generated id, modelled by a seed. -/
def emptyDocument (seed : Nat) : Doc :=
  ⟨.fresh seed, []⟩

/-- Method get_doc (lines 204-208): fetch the stored record; an absent key
makes transaction.get return nothing and the Document constructor then builds
a fresh empty document, with no error and no absence signal. -/
def get_doc (store : Store) (doc_id : DocId) (seed : Nat) : Doc :=
  match lookupA store doc_id with
  | some d => d
  | none => emptyDocument seed

/-- Line 127: expand_top_k = 2 * top_k + self.total_deletes. -/
def expand_top_k (st : IndexerState) (top_k : Nat) : Nat :=
  2 * top_k + total_deletes st

/-- The spec-side notion of the current tombstone count: the number of offsets
whose delete mark is set. -/
def tombstone_count (st : IndexerState) : Nat :=
  st.metas.delete_marks.count 1

/-- The ANN-hit half of the merge loop (lines 138-144): for every (offset,
distance) pair, resolve the offset through doc_ids, fetch the record with
get_doc (a deleted record yields a fresh empty document), attach the distance
as score and insert into the ordered candidate dictionary keyed by the id of
the fetched document.  No delete mark is consulted.  The seed numbers the
fresh ids of empty documents; an offset outside doc_ids raises IndexError. -/
def annCandidates (ms : Metas) (store : Store) :
    List (Nat × Int) → Nat → List (DocId × (Doc × Int)) →
      Except PyErr (List (DocId × (Doc × Int)))
  | [], _, acc => .ok acc
  | (idx, dist) :: t, seed, acc =>
    match ms.doc_ids[idx]? with
    | none => .error .indexError
    | some mid =>
      let m := get_doc store mid seed
      annCandidates ms store t (seed + 1) (setA acc m.id (m, dist))

/-- The write-buffer half of the merge loop (lines 147-148): every buffer
match is inserted into the candidate dictionary under its own id, overwriting
an entry already present under that id. -/
def mergeBuffer (acc : List (DocId × (Doc × Int))) :
    List (Doc × Int) → List (DocId × (Doc × Int))
  | [] => acc
  | p :: t => mergeBuffer (setA acc p.1.id p) t

/-- The final ranking step (lines 150-155).  The sort key receives the
(id, document) pairs of matched_docs.items() and reads item.scores on the
pair, which is a tuple without a scores attribute: as soon as sorted computes
the keys, which happens for every element of a nonempty sequence,
AttributeError is raised.  Only the empty candidate dictionary avoids the key
computation and produces the empty truncated match list. -/
def rankTruncate (merged : List (DocId × (Doc × Int))) (top_k : Nat) :
    Except PyErr (List Doc) :=
  match merged with
  | [] => .ok []
  | _ :: _ => .error .attributeError

/-- The per-query body of search (lines 135-155), taking the raw ANN hits of
this query and the write-buffer matches of this query as inputs. -/
def searchQuery (st : IndexerState) (annHits : List (Nat × Int))
    (bufMatches : List (Doc × Int)) (top_k : Nat) : Except PyErr (List Doc) :=
  match annCandidates st.metas st.storage annHits 0 [] with
  | .error e => .error e
  | .ok cands => rankTruncate (mergeBuffer cands bufMatches) top_k

/-- Request handler search (lines 116-155) for one query, parameterized by the
external faiss search and the external jina brute-force buffer match: the
query is normalized for the cosine metric, the engine is asked for
expand_top_k neighbours, the buffer is matched only when non-empty, and the
results are merged per query. -/
def search (normalize : Vec → Vec) (annSearch : Vec → Nat → List (Nat × Int))
    (bufMatch : Vec → Nat → List (Doc × Int)) (st : IndexerState)
    (query : Vec) (top_k : Nat) : Except PyErr (List Doc) :=
  let q := if st.metric = "cosine" then normalize query else query
  let hits := annSearch q (expand_top_k st top_k)
  let bm := if st.buffer.isEmpty then [] else bufMatch q top_k
  searchQuery st hits bm top_k

instance {ε α : Type} [DecidableEq ε] [DecidableEq α] : DecidableEq (Except ε α) :=
  fun a b =>
    match a, b with
    | .ok x, .ok y =>
      if h : x = y then .isTrue (congrArg Except.ok h)
      else .isFalse (fun hh => h (Except.ok.inj hh))
    | .error e, .error f =>
      if h : e = f then .isTrue (congrArg Except.error h)
      else .isFalse (fun hh => h (Except.error.inj hh))
    | .ok _, .error _ => .isFalse (fun hh => Except.noConfusion hh)
    | .error _, .ok _ => .isFalse (fun hh => Except.noConfusion hh)

/-! Concrete scenario used by the counterexample theorems: two documents
indexed from an empty indexer with the l2 metric, then one deleted. -/

/-- Identity embedding map, standing in for faiss.normalize_L2 where the l2
metric never invokes it. -/
def idVec (v : Vec) : Vec := v

/-- Document a with embedding [1]. -/
def docA : Doc := ⟨.real "a", [1]⟩

/-- Document b with embedding [2]. -/
def docB : Doc := ⟨.real "b", [2]⟩

/-- A re-insert of id a with a new embedding. -/
def docA2 : Doc := ⟨.real "a", [9]⟩

/-- The empty indexer with the l2 metric. -/
def st0 : IndexerState := ⟨"l2", ⟨[], [], []⟩, [], [], []⟩

/-- The state after indexing docA into st0. -/
def st1 : IndexerState :=
  ⟨"l2", ⟨[.real "a"], [(.real "a", 1)], [0]⟩, [(.real "a", docA)], [], [[1]]⟩

/-- The state after indexing docB into st1. -/
def st2 : IndexerState :=
  ⟨"l2", ⟨[.real "a", .real "b"], [(.real "a", 1), (.real "b", 2)], [0, 0]⟩,
    [(.real "a", docA), (.real "b", docB)], [], [[1], [2]]⟩

/-- The state after deleting docA from st2: the store record of a is gone and,
through the corrupted offset map, the delete mark was set at offset 1. -/
def stA : IndexerState :=
  ⟨"l2", ⟨[.real "a", .real "b"], [(.real "a", 1), (.real "b", 2)], [0, 1]⟩,
    [(.real "b", docB)], [], [[1], [2]]⟩

/-- The state after re-indexing id a (docA2) into st1. -/
def st4 : IndexerState :=
  ⟨"l2", ⟨[.real "a", .real "a"], [(.real "a", 2)], [0, 0]⟩,
    [(.real "a", docA2)], [], [[1], [9]]⟩

/-- Claim C2 (code_bug evidence): on an empty indexer, _add_vecs_with_ids
records offset 1 for document a even though the engine size at insertion was 0
and the vector of a physically sits at engine position 0; the offsets are read
from self.total_docs after the engine add, so the whole batch is shifted by
its own size, and an immediate delete of a raises IndexError because the
recorded offset 1 is outside the delete-marks list of length 1. -/
theorem offset_assignment_after_add :
    st0.engine.length = 0 ∧
    add_vecs_with_ids idVec st0 [[1]] [.real "a"] =
      { st0 with engine := [[1]], metas := ⟨[.real "a"], [(.real "a", 1)], [0]⟩ } ∧
    lookupA (add_vecs_with_ids idVec st0 [[1]] [.real "a"]).metas.doc_id_to_offset
      (.real "a") = some 1 ∧
    (add_vecs_with_ids idVec st0 [[1]] [.real "a"]).metas.doc_ids[0]? =
      some (.real "a") ∧
    index idVec st0 [docA] = .ok st1 ∧
    delete st1 [docA] = .error (.indexError, st1) := by
  decide

/-- Claim C4 (code_bug evidence): indexing id a twice. The second index call
reaches put with overwrite=True, which reports the record as written even
though the key existed, so the document is treated as a fresh insert: its
vector is appended again (the engine grows from 1 to 2 vectors), a new offset
is assigned to a, and the update routing is never taken (the write buffer
stays empty). -/
theorem reinsert_appends_vector_again :
    index idVec st0 [docA] = .ok st1 ∧
    index idVec st1 [docA2] = .ok st4 ∧
    st4.engine.length = 2 ∧
    st4.buffer = [] ∧
    st4.metas.doc_ids = [.real "a", .real "a"] ∧
    lookupA st4.metas.doc_id_to_offset (.real "a") = some 2 := by
  decide

/-- Claim C1 (code_bug evidence): after indexing a and b and deleting a, the
merge loop of search never consults the delete marks.  The ANN hit at offset 1
is tombstoned (delete mark 1) yet it is resolved and added to the candidate
set, and the hit at offset 0 (the stale vector of the deleted document a,
whose slot was never even tombstoned because of the shifted offset map)
produces a fresh empty phantom document that also enters the candidate set
with the stale distance; the search then raises instead of returning the
empty match list the spec requires. -/
theorem search_merge_adds_tombstoned_hit :
    index idVec st0 [docA] = .ok st1 ∧
    index idVec st1 [docB] = .ok st2 ∧
    delete st2 [docA] = .ok (stA, []) ∧
    stA.metas.delete_marks[1]? = some 1 ∧
    annCandidates stA.metas stA.storage [(1, 7)] 0 [] =
      .ok [(.real "b", (docB, 7))] ∧
    annCandidates stA.metas stA.storage [(0, 7)] 0 [] =
      .ok [(.fresh 0, (emptyDocument 0, 7))] ∧
    searchQuery stA [(1, 7)] [] 1 = .error .attributeError := by
  decide

/-- Claim C5 (code_bug evidence): with one indexed document and one ANN hit,
the candidate set is nonempty, so the ranking step raises AttributeError (the
sort key treats the (id, document) pair as a document) instead of returning
the candidates sorted by score and truncated to top_k; only an empty
candidate set yields a result, the empty list. -/
theorem rank_raises_attribute_error :
    annCandidates st1.metas st1.storage [(0, 3)] 0 [] =
      .ok [(.real "a", (docA, 3))] ∧
    searchQuery st1 [(0, 3)] [] 10 = .error .attributeError ∧
    rankTruncate [] 10 = .ok [] := by
  decide

/-- One step of summing a list of delete marks that are all 0 or 1: the sum
counts the marks that are set. -/
theorem sum_eq_count_of_le_one (l : List Nat) (h : ∀ x ∈ l, x ≤ 1) :
    l.sum = l.count 1 := by
  induction l with
  | nil => simp
  | cons a t ih =>
    have ha : a ≤ 1 := h a (by simp)
    have ht := ih (fun x hx => h x (by simp [hx]))
    interval_cases a <;> simp [List.count_cons, ht, Nat.add_comm]

/-- Claim C7: when every delete mark is 0 or 1 (as the code maintains), the
number of neighbours requested from the ANN engine for each query is exactly
expand_k = 2 * top_k + t, where t is the current tombstone count. -/
theorem expand_top_k_eq (st : IndexerState) (k : Nat)
    (h : ∀ x ∈ st.metas.delete_marks, x ≤ 1) :
    expand_top_k st k = 2 * k + tombstone_count st := by
  unfold expand_top_k total_deletes tombstone_count
  rw [sum_eq_count_of_le_one st.metas.delete_marks h]

/-- A state with three tombstones recorded among five offsets. -/
def stMarks : IndexerState :=
  ⟨"l2", ⟨[], [], [0, 1, 1, 0, 1]⟩, [], [], []⟩

/-- Witness for claim C7 at a concrete state: five offsets, three tombstoned,
top_k 5, so the engine is asked for 13 neighbours. -/
theorem expand_top_k_eq_witness :
    expand_top_k stMarks 5 = 2 * 5 + tombstone_count stMarks :=
  expand_top_k_eq stMarks 5 (by decide)

/-- Claim C9: a metric string outside the recognized set is mapped to
METRIC_L2; metric_type is total, so construction proceeds with only the
logged warning. -/
theorem invalid_metric_defaults_to_l2 (metric : String)
    (h1 : metric ≠ "inner_product") (h2 : metric ≠ "l2") (h3 : metric ≠ "cosine") :
    metric_type metric = .METRIC_L2 := by
  unfold metric_type
  rw [if_neg h1, if_neg h3]

/-- Witness for claim C9: the unrecognized metric string euclidean is mapped
to METRIC_L2. -/
theorem invalid_metric_defaults_to_l2_witness :
    metric_type "euclidean" = .METRIC_L2 :=
  invalid_metric_defaults_to_l2 "euclidean" (by decide) (by decide) (by decide)

/-- Claim C10: for an identifier absent from the store, get_doc neither fails
nor signals absence: it returns a fresh empty document, a plain Doc just like
a successful fetch. -/
theorem get_doc_absent_returns_empty (store : Store) (doc_id : DocId) (seed : Nat)
    (h : lookupA store doc_id = none) :
    get_doc store doc_id seed = emptyDocument seed ∧
    (get_doc store doc_id seed).embedding = [] := by
  unfold get_doc
  rw [h]
  exact ⟨rfl, rfl⟩

/-- Witness for claim C10: fetching a missing id from the empty store returns
the fresh empty document. -/
theorem get_doc_absent_returns_empty_witness :
    get_doc [] (.real "missing") 0 = emptyDocument 0 ∧
    (get_doc ([] : Store) (.real "missing") 0).embedding = [] :=
  get_doc_absent_returns_empty [] (.real "missing") 0 (by decide)

/-! Lookup lemmas for the association-list operations. -/

/-- Lookup after a store: the stored key reads the new value, every other key
is untouched. -/
theorem lookupA_setA {α β : Type} [DecidableEq α] (l : List (α × β)) (k x : α) (v : β) :
    lookupA (setA l k v) x = if k = x then some v else lookupA l x := by
  induction l with
  | nil => simp [setA, lookupA]
  | cons hd t ih =>
    obtain ⟨a, b⟩ := hd
    simp only [setA]
    by_cases hak : a = k
    · rw [if_pos hak]
      subst hak
      simp only [lookupA]
      by_cases hax : a = x
      · simp only [if_pos hax]
      · simp only [if_neg hax]
    · rw [if_neg hak]
      simp only [lookupA]
      by_cases hax : a = x
      · have hkx : ¬ k = x := fun h => hak (by rw [hax, h])
        simp only [if_pos hax, if_neg hkx]
      · simp only [if_neg hax]
        exact ih

/-- Lookup after a removal: the removed key reads nothing, every other key is
untouched. -/
theorem lookupA_removeA {α β : Type} [DecidableEq α] (l : List (α × β)) (x k : α) :
    lookupA (removeA l x) k = if x = k then none else lookupA l k := by
  induction l with
  | nil => simp [removeA, lookupA]
  | cons hd t ih =>
    obtain ⟨a, b⟩ := hd
    by_cases hax : a = x
    · have hfil : removeA ((a, b) :: t) x = removeA t x := by
        simp [removeA, List.filter_cons, hax]
      rw [hfil, ih]
      by_cases hxk : x = k
      · simp [hxk]
      · have hak : ¬ a = k := fun h => hxk (by rw [← hax, h])
        simp [hxk, lookupA, hak]
    · have hfil : removeA ((a, b) :: t) x = (a, b) :: removeA t x := by
        simp [removeA, List.filter_cons, hax]
      rw [hfil]
      simp only [lookupA]
      by_cases hak : a = k
      · have hxk : ¬ x = k := fun h => hax (by rw [hak, ← h])
        simp [hak, hxk]
      · simp [hak, ih]

/-! Claim C3: the write-buffer override in the search merge. -/

/-- Folding buffer matches whose ids all differ from k leaves the candidate
entry under k unchanged. -/
theorem mergeBuffer_lookup_preserve (bm : List (Doc × Int)) :
    ∀ (acc : List (DocId × (Doc × Int))) (k : DocId),
      (∀ p ∈ bm, p.1.id ≠ k) →
      lookupA (mergeBuffer acc bm) k = lookupA acc k := by
  induction bm with
  | nil => intro acc k _; rfl
  | cons p t ih =>
    intro acc k hk
    simp only [mergeBuffer]
    rw [ih (setA acc p.1.id p) k (fun q hq => hk q (List.mem_cons_of_mem p hq))]
    rw [lookupA_setA]
    exact if_neg (hk p (List.mem_cons_self p t))

/-- Folding buffer matches with pairwise distinct ids stores each match under
its own id, whatever the accumulator already held there. -/
theorem mergeBuffer_lookup_last (bm : List (Doc × Int)) :
    ∀ (acc : List (DocId × (Doc × Int))) (m : Doc) (s : Int),
      (bm.map (fun p => p.1.id)).Nodup → (m, s) ∈ bm →
      lookupA (mergeBuffer acc bm) m.id = some (m, s) := by
  induction bm with
  | nil =>
    intro acc m s _ hmem
    cases hmem
  | cons p t ih =>
    intro acc m s hnd hmem
    simp only [List.map_cons, List.nodup_cons] at hnd
    rcases List.mem_cons.mp hmem with hp | ht
    · have hpre : ∀ q ∈ t, q.1.id ≠ m.id := by
        intro q hq he
        have hm : m.id ∈ t.map (fun r => r.1.id) :=
          he ▸ List.mem_map_of_mem (fun r => r.1.id) hq
        rw [← hp] at hnd
        exact hnd.1 hm
      simp only [mergeBuffer]
      rw [mergeBuffer_lookup_preserve t (setA acc p.1.id p) m.id hpre]
      rw [← hp, lookupA_setA]
      exact if_pos rfl
    · simp only [mergeBuffer]
      exact ih (setA acc p.1.id p) m s hnd.2 ht

/-- Claim C3: a document held by the write buffer is authoritative in the
search merge: whatever entry the ANN-derived candidate set already holds under
its identifier, merging the buffer matches overwrites it with the
write-buffer version and its own score, before the ranking step.  The
hypotheses say that (m, s) is one of the buffer matches for the query (buffer
match ids are distinct, as the buffer holds one record per id) and that m is
the buffered record. -/
theorem write_buffer_override (st : IndexerState)
    (cands : List (DocId × (Doc × Int))) (bufMatches : List (Doc × Int))
    (m : Doc) (s : Int)
    (hnd : (bufMatches.map (fun p => p.1.id)).Nodup)
    (hmem : (m, s) ∈ bufMatches)
    (hbuf : m ∈ st.buffer) :
    lookupA (mergeBuffer cands bufMatches) m.id = some (m, s) :=
  mergeBuffer_lookup_last bufMatches cands m s hnd hmem

/-- A buffered document used by the C3 witness. -/
def docM : Doc := ⟨.real "m", [5]⟩

/-- A state whose write buffer holds docM. -/
def stBuf : IndexerState :=
  ⟨"l2", ⟨[.real "m"], [(.real "m", 1)], [0]⟩, [(.real "m", docM)], [docM], [[4]]⟩

/-- Witness for claim C3: an ANN-derived candidate for id m with the stale
score 9 is overwritten by the buffer match (docM, 4). -/
theorem write_buffer_override_witness :
    lookupA (mergeBuffer [(DocId.real "m", (⟨.real "m", [4]⟩, 9))] [(docM, 4)])
      docM.id = some (docM, 4) :=
  write_buffer_override stBuf [(DocId.real "m", (⟨.real "m", [4]⟩, 9))]
    [(docM, 4)] docM 4 (by decide) (by decide) (by decide)

/-! Claim C6: the update handler. -/

/-- Running the update loop over documents whose ids are all present and
pairwise distinct succeeds, appends exactly those documents to the buffer,
stores each document under its id, and leaves every other key unchanged. -/
theorem updateLoop_ok (docs : List Doc) :
    ∀ (store : Store) (buffer : List Doc),
      (∀ d ∈ docs, (lookupA store d.id).isSome = true) →
      (docs.map Doc.id).Nodup →
      ∃ fs, updateLoop store buffer docs = .ok (fs, buffer ++ docs) ∧
        (∀ d ∈ docs, lookupA fs d.id = some d) ∧
        (∀ k : DocId, (∀ d ∈ docs, d.id ≠ k) → lookupA fs k = lookupA store k) := by
  induction docs with
  | nil =>
    intro store buffer _ _
    exact ⟨store, by simp [updateLoop], by simp, fun k _ => rfl⟩
  | cons d t ih =>
    intro store buffer hpres hnd
    simp only [List.map_cons, List.nodup_cons] at hnd
    obtain ⟨w, hw⟩ := Option.isSome_iff_exists.mp (hpres d (List.mem_cons_self d t))
    have hne : ∀ e ∈ t, d.id ≠ e.id := by
      intro e he hde
      exact hnd.1 (by rw [hde]; exact List.mem_map_of_mem Doc.id he)
    have hpres2 : ∀ e ∈ t, (lookupA (setA store d.id d) e.id).isSome = true := by
      intro e he
      rw [lookupA_setA, if_neg (hne e he)]
      exact hpres e (List.mem_cons_of_mem d he)
    obtain ⟨fs, heq, hall, hkeep⟩ := ih (setA store d.id d) (buffer ++ [d]) hpres2 hnd.2
    refine ⟨fs, ?_, ?_, ?_⟩
    · simp only [updateLoop, lmdbReplace, hw, heq]
      rw [List.append_cons buffer d t]
    · intro e he
      rcases List.mem_cons.mp he with rfl | het
      · rw [hkeep e.id (fun q hq hqe => hne q hq hqe.symm), lookupA_setA, if_pos rfl]
      · exact hall e het
    · intro k hk
      rw [hkeep k (fun e he => hk e (List.mem_cons_of_mem d he))]
      rw [lookupA_setA, if_neg (hk d (List.mem_cons_self d t))]

/-- Running the update loop over a prefix of present documents followed by a
document with an unknown id raises ValueError at that document: the
documents after it are never processed and the buffer holds exactly the
prefix appended so far. -/
theorem updateLoop_error (pre : List Doc) :
    ∀ (store : Store) (buffer : List Doc) (bad : Doc) (post : List Doc),
      (∀ d ∈ pre, (lookupA store d.id).isSome = true) →
      lookupA store bad.id = none →
      updateLoop store buffer (pre ++ bad :: post) = .error (bad.id, buffer ++ pre) := by
  induction pre with
  | nil =>
    intro store buffer bad post _ hbad
    simp [updateLoop, lmdbReplace, hbad]
  | cons d t ih =>
    intro store buffer bad post hpres hbad
    obtain ⟨w, hw⟩ := Option.isSome_iff_exists.mp (hpres d (List.mem_cons_self d t))
    have hdb : ¬ d.id = bad.id := by
      intro he
      rw [he, hbad] at hw
      cases hw
    have hpres2 : ∀ e ∈ t, (lookupA (setA store d.id d) e.id).isSome = true := by
      intro e he
      rw [lookupA_setA]
      by_cases hde : d.id = e.id
      · rw [if_pos hde]
        rfl
      · rw [if_neg hde]
        exact hpres e (List.mem_cons_of_mem d he)
    have hbad2 : lookupA (setA store d.id d) bad.id = none := by
      rw [lookupA_setA, if_neg hdb]
      exact hbad
    simp only [List.cons_append, List.append_eq, updateLoop, lmdbReplace, hw]
    rw [ih (setA store d.id d) (buffer ++ [d]) bad post hpres2 hbad2]
    rw [List.append_cons buffer d t]

/-- Claim C6: for an update batch, every document whose id is present in the
store has its record replaced and is appended to the write buffer; the first
document whose id is absent raises ValueError, which is a hard stop for the
whole batch: the documents after it are not processed, the buffer gains
exactly the documents before it, and the aborted transaction leaves the
store unchanged. -/
theorem update_replace_and_hard_stop (st : IndexerState) (pre post : List Doc) (bad : Doc)
    (hpre : ∀ d ∈ pre, (lookupA st.storage d.id).isSome = true)
    (hnd : (pre.map Doc.id).Nodup)
    (hbad : lookupA st.storage bad.id = none) :
    (∃ store2,
      update st pre = .ok { st with storage := store2, buffer := st.buffer ++ pre } ∧
      ∀ d ∈ pre, lookupA store2 d.id = some d) ∧
    update st (pre ++ bad :: post) =
      .error (.valueError bad.id, { st with buffer := st.buffer ++ pre }) := by
  constructor
  · obtain ⟨fs, heq, hall, _⟩ := updateLoop_ok pre st.storage st.buffer hpre hnd
    refine ⟨fs, ?_, hall⟩
    unfold update
    rw [heq]
  · unfold update
    rw [updateLoop_error pre st.storage st.buffer bad post hpre hbad]

/-- A stored document with id u. -/
def docU : Doc := ⟨.real "u", [1]⟩

/-- The updated version of the document with id u. -/
def docUnew : Doc := ⟨.real "u", [7]⟩

/-- A stored document with id v. -/
def docV : Doc := ⟨.real "v", [2]⟩

/-- A document whose id w is not in the store. -/
def docW : Doc := ⟨.real "w", [3]⟩

/-- A state holding documents u and v. -/
def stU : IndexerState :=
  ⟨"l2", ⟨[.real "u", .real "v"], [(.real "u", 0), (.real "v", 1)], [0, 0]⟩,
    [(.real "u", docU), (.real "v", docV)], [], [[1], [2]]⟩

/-- Witness for claim C6: updating the present document u succeeds, replacing
its record and buffering it; the batch u, w, v stops hard at the unknown id w
with only u processed. -/
theorem update_replace_and_hard_stop_witness :
    (∃ store2,
      update stU [docUnew] =
        .ok { stU with storage := store2, buffer := stU.buffer ++ [docUnew] } ∧
      ∀ d ∈ [docUnew], lookupA store2 d.id = some d) ∧
    update stU ([docUnew] ++ docW :: [docV]) =
      .error (.valueError docW.id, { stU with buffer := stU.buffer ++ [docUnew] }) :=
  update_replace_and_hard_stop stU [docUnew] [docV] docW
    (by decide) (by decide) (by decide)

/-! Claim C8: the delete handler. -/

/-- Running the delete loop over documents with pairwise distinct ids, each
either absent from the store or having an in-range offset, succeeds; it logs
exactly the absent ids in order, removes the present records from the store,
sets the delete mark at the offset of every present document, filters the
present ids out of the buffer, and leaves doc_ids, the offset map and the
length of the delete-marks list unchanged. -/
theorem deleteLoop_ok (docs : List Doc) :
    ∀ (ms : Metas) (store : Store) (buffer : List Doc) (log : List DocId),
      (docs.map Doc.id).Nodup →
      (∀ d ∈ docs, lookupA store d.id = none ∨
        ∃ idx, lookupA ms.doc_id_to_offset d.id = some idx ∧
          idx < ms.delete_marks.length) →
      ∃ ms2 store2 buffer2,
        deleteLoop ms store buffer log docs =
          .ok (ms2, store2, buffer2,
            log ++ (docs.filter (fun d => !(lookupA store d.id).isSome)).map Doc.id) ∧
        ms2.doc_ids = ms.doc_ids ∧
        ms2.doc_id_to_offset = ms.doc_id_to_offset ∧
        ms2.delete_marks.length = ms.delete_marks.length ∧
        (∀ j : Nat, ms.delete_marks[j]? = some 1 → ms2.delete_marks[j]? = some 1) ∧
        (∀ d ∈ docs, lookupA store2 d.id = none) ∧
        (∀ k : DocId, lookupA store k = none → lookupA store2 k = none) ∧
        (∀ d ∈ docs, ∀ idx : Nat, (lookupA store d.id).isSome = true →
          lookupA ms.doc_id_to_offset d.id = some idx →
          ms2.delete_marks[idx]? = some 1) ∧
        buffer2 = buffer.filter
          (fun b => decide (∀ d ∈ docs,
            (lookupA store d.id).isSome = true → ¬ d.id = b.id)) := by
  induction docs with
  | nil =>
    intro ms store buffer log _ _
    refine ⟨ms, store, buffer, by simp [deleteLoop], rfl, rfl, rfl,
      fun j hj => hj, by simp, fun k hk => hk, by simp, ?_⟩
    have hall : ∀ b ∈ buffer,
        (decide (∀ d ∈ ([] : List Doc),
          (lookupA store d.id).isSome = true → ¬ d.id = b.id)) = true := by
      intro b _
      simp
    exact (List.filter_eq_self.mpr hall).symm
  | cons d t ih =>
    intro ms store buffer log hnd hwf
    simp only [List.map_cons, List.nodup_cons] at hnd
    have hne : ∀ e ∈ t, d.id ≠ e.id := by
      intro e he hde
      exact hnd.1 (by rw [hde]; exact List.mem_map_of_mem Doc.id he)
    by_cases hd : (lookupA store d.id).isSome = true
    · -- the id is present: the record is removed and the mark set
      rcases hwf d (List.mem_cons_self d t) with hnone | ⟨idx, hidx, hlt⟩
      · rw [hnone] at hd
        cases hd
      have hlook : ∀ e ∈ t,
          lookupA (removeA store d.id) e.id = lookupA store e.id := by
        intro e he
        rw [lookupA_removeA]
        exact if_neg (hne e he)
      have hwf2 : ∀ e ∈ t, lookupA (removeA store d.id) e.id = none ∨
          ∃ i, lookupA (Metas.mk ms.doc_ids ms.doc_id_to_offset
              (ms.delete_marks.set idx 1)).doc_id_to_offset e.id = some i ∧
            i < (Metas.mk ms.doc_ids ms.doc_id_to_offset
              (ms.delete_marks.set idx 1)).delete_marks.length := by
        intro e he
        rcases hwf e (List.mem_cons_of_mem d he) with hn | ⟨i, hi, hl⟩
        · left
          rw [hlook e he]
          exact hn
        · right
          exact ⟨i, hi, by simpa [List.length_set] using hl⟩
      obtain ⟨ms2, store2, buffer2, heq, h1, h2, h3, h4, h5, h6, h7, h8⟩ :=
        ih (Metas.mk ms.doc_ids ms.doc_id_to_offset (ms.delete_marks.set idx 1))
          (removeA store d.id) (bufRemove buffer d.id) log hnd.2 hwf2
      refine ⟨ms2, store2, buffer2, ?_, h1, h2, ?_, ?_, ?_, ?_, ?_, ?_⟩
      · -- the loop reduces to the recursive call and the logs agree
        simp only [deleteLoop, lmdbDelete, hd, hidx, if_pos hlt, heq]
        have hfc : (t.filter (fun e => !(lookupA (removeA store d.id) e.id).isSome)) =
            (t.filter (fun e => !(lookupA store e.id).isSome)) :=
          List.filter_congr (fun e he => by rw [hlook e he])
        rw [hfc]
        have hpos : (!(lookupA store d.id).isSome) = false := by
          rw [hd]
          rfl
        have hdrop : List.filter (fun e => !(lookupA store e.id).isSome) (d :: t) =
            List.filter (fun e => !(lookupA store e.id).isSome) t := by
          rw [List.filter_cons, hpos]
          simp
        rw [hdrop]
      · rw [h3]
        simp [List.length_set]
      · intro j hj
        apply h4
        by_cases hji : idx = j
        · subst hji
          simp [List.getElem?_set_self (l := ms.delete_marks) (by exact hlt)]
        · rw [List.getElem?_set_ne hji]
          exact hj
      · intro e he
        rcases List.mem_cons.mp he with rfl | het
        · apply h6
          rw [lookupA_removeA]
          exact if_pos rfl
        · exact h5 e het
      · intro k hk
        apply h6
        rw [lookupA_removeA]
        by_cases hdk : d.id = k
        · exact if_pos hdk
        · rw [if_neg hdk]
          exact hk
      · intro e he i hsome hoff
        rcases List.mem_cons.mp he with rfl | het
        · have hii : i = idx := by
            rw [hidx] at hoff
            exact (Option.some.inj hoff).symm
          subst hii
          apply h4
          simp [List.getElem?_set_self (l := ms.delete_marks) (by exact hlt)]
        · apply h7 e het i
          · rw [hlook e het]
            exact hsome
          · exact hoff
      · rw [h8]
        unfold bufRemove
        rw [List.filter_filter]
        refine List.filter_congr ?_
        intro b _
        have hiff : (∀ e ∈ d :: t,
            (lookupA store e.id).isSome = true → ¬ e.id = b.id) ↔
            ((∀ e ∈ t, (lookupA (removeA store d.id) e.id).isSome = true →
              ¬ e.id = b.id) ∧ ¬ b.id = d.id) := by
          rw [List.forall_mem_cons]
          constructor
          · rintro ⟨hh, htl⟩
            refine ⟨fun e he hse => htl e he (by rw [← hlook e he]; exact hse),
              fun hbd => hh hd hbd.symm⟩
          · rintro ⟨htl, hbd⟩
            refine ⟨fun _ hdb => hbd hdb.symm,
              fun e he hse => htl e he (by rw [hlook e he]; exact hse)⟩
        rw [← Bool.decide_and]
        exact decide_eq_decide.mpr hiff.symm
    · -- the id is absent: a warning is logged and the loop continues
      have hnone : lookupA store d.id = none := by
        cases hcase : lookupA store d.id with
        | none => rfl
        | some w => rw [hcase] at hd; cases hd rfl
      have hdfalse : (lookupA store d.id).isSome = false := by
        rw [hnone]
        rfl
      have hlook : ∀ e ∈ t,
          lookupA (removeA store d.id) e.id = lookupA store e.id := by
        intro e he
        rw [lookupA_removeA]
        exact if_neg (hne e he)
      have hwf2 : ∀ e ∈ t, lookupA (removeA store d.id) e.id = none ∨
          ∃ i, lookupA ms.doc_id_to_offset e.id = some i ∧
            i < ms.delete_marks.length := by
        intro e he
        rcases hwf e (List.mem_cons_of_mem d he) with hn | hr
        · left
          rw [hlook e he]
          exact hn
        · right
          exact hr
      obtain ⟨ms2, store2, buffer2, heq, h1, h2, h3, h4, h5, h6, h7, h8⟩ :=
        ih ms (removeA store d.id) buffer (log ++ [d.id]) hnd.2 hwf2
      refine ⟨ms2, store2, buffer2, ?_, h1, h2, h3, h4, ?_, ?_, ?_, ?_⟩
      · simp only [deleteLoop, lmdbDelete, hdfalse, heq]
        have hfc : (t.filter (fun e => !(lookupA (removeA store d.id) e.id).isSome)) =
            (t.filter (fun e => !(lookupA store e.id).isSome)) :=
          List.filter_congr (fun e he => by rw [hlook e he])
        rw [hfc]
        have hneg : (!(lookupA store d.id).isSome) = true := by
          rw [hdfalse]
          rfl
        have hkeep : List.filter (fun e => !(lookupA store e.id).isSome) (d :: t) =
            d :: List.filter (fun e => !(lookupA store e.id).isSome) t := by
          rw [List.filter_cons, hneg]
          simp
        rw [hkeep]
        simp
      · intro e he
        rcases List.mem_cons.mp he with rfl | het
        · apply h6
          rw [lookupA_removeA]
          exact if_pos rfl
        · exact h5 e het
      · intro k hk
        apply h6
        rw [lookupA_removeA]
        by_cases hdk : d.id = k
        · exact if_pos hdk
        · rw [if_neg hdk]
          exact hk
      · intro e he i hsome hoff
        rcases List.mem_cons.mp he with rfl | het
        · rw [hnone] at hsome
          cases hsome
        · apply h7 e het i
          · rw [hlook e het]
            exact hsome
          · exact hoff
      · rw [h8]
        refine List.filter_congr ?_
        intro b _
        have hiff : (∀ e ∈ t,
            (lookupA (removeA store d.id) e.id).isSome = true → ¬ e.id = b.id) ↔
            (∀ e ∈ d :: t, (lookupA store e.id).isSome = true → ¬ e.id = b.id) := by
          rw [List.forall_mem_cons]
          constructor
          · intro htl
            refine ⟨fun hse => ?_, fun e he hse => htl e he (by rw [hlook e he]; exact hse)⟩
            rw [hnone] at hse
            cases hse
          · rintro ⟨_, htl⟩
            exact fun e he hse => htl e he (by rw [← hlook e he]; exact hse)
        exact decide_eq_decide.mpr hiff

/-- Claim C8: for a delete batch over pairwise distinct ids on a state whose
present ids carry in-range offsets, the handler succeeds: absent ids are only
logged as warnings (processing continues), present ids have their store
record removed, their offset tombstoned and their buffer entry dropped, and
the engine, doc_ids, the offset map and the delete-marks length are left
unchanged. -/
theorem delete_batch_spec (st : IndexerState) (docs : List Doc)
    (hnd : (docs.map Doc.id).Nodup)
    (hwf : ∀ d ∈ docs, lookupA st.storage d.id = none ∨
      ∃ idx, lookupA st.metas.doc_id_to_offset d.id = some idx ∧
        idx < st.metas.delete_marks.length) :
    ∃ st2, delete st docs =
        .ok (st2, (docs.filter (fun d => !(lookupA st.storage d.id).isSome)).map Doc.id) ∧
      st2.engine = st.engine ∧
      st2.metric = st.metric ∧
      st2.metas.doc_ids = st.metas.doc_ids ∧
      st2.metas.doc_id_to_offset = st.metas.doc_id_to_offset ∧
      st2.metas.delete_marks.length = st.metas.delete_marks.length ∧
      (∀ d ∈ docs, lookupA st2.storage d.id = none) ∧
      (∀ d ∈ docs, ∀ idx : Nat, (lookupA st.storage d.id).isSome = true →
        lookupA st.metas.doc_id_to_offset d.id = some idx →
        st2.metas.delete_marks[idx]? = some 1) ∧
      st2.buffer = st.buffer.filter
        (fun b => decide (∀ d ∈ docs,
          (lookupA st.storage d.id).isSome = true → ¬ d.id = b.id)) := by
  obtain ⟨ms2, store2, buffer2, heq, h1, h2, h3, h4, h5, h6, h7, h8⟩ :=
    deleteLoop_ok docs st.metas st.storage st.buffer [] hnd hwf
  refine ⟨{ st with metas := ms2, storage := store2, buffer := buffer2 },
    ?_, rfl, rfl, h1, h2, h3, h5, h7, h8⟩
  unfold delete
  rw [heq]
  simp

/-- A document whose id x is in no store. -/
def docX : Doc := ⟨.real "x", []⟩

/-- A state holding documents u and v, with u also in the write buffer. -/
def stD : IndexerState :=
  ⟨"l2", ⟨[.real "u", .real "v"], [(.real "u", 0), (.real "v", 1)], [0, 0]⟩,
    [(.real "u", docU), (.real "v", docV)], [docU], [[1], [2]]⟩

/-- Witness for claim C8: deleting the present u and the absent x succeeds,
logging only x, tombstoning offset 0, dropping u from store and buffer, and
leaving the offset map, doc_ids and engine unchanged. -/
theorem delete_batch_spec_witness :
    ∃ st2, delete stD [docU, docX] =
        .ok (st2, ([docU, docX].filter
          (fun d => !(lookupA stD.storage d.id).isSome)).map Doc.id) ∧
      st2.engine = stD.engine ∧
      st2.metric = stD.metric ∧
      st2.metas.doc_ids = stD.metas.doc_ids ∧
      st2.metas.doc_id_to_offset = stD.metas.doc_id_to_offset ∧
      st2.metas.delete_marks.length = stD.metas.delete_marks.length ∧
      (∀ d ∈ [docU, docX], lookupA st2.storage d.id = none) ∧
      (∀ d ∈ [docU, docX], ∀ idx : Nat, (lookupA stD.storage d.id).isSome = true →
        lookupA stD.metas.doc_id_to_offset d.id = some idx →
        st2.metas.delete_marks[idx]? = some 1) ∧
      st2.buffer = stD.buffer.filter
        (fun b => decide (∀ d ∈ [docU, docX],
          (lookupA stD.storage d.id).isSome = true → ¬ d.id = b.id)) :=
  delete_batch_spec stD [docU, docX] (by decide)
    (by
      intro d hd
      fin_cases hd
      · right
        exact ⟨0, rfl, by decide⟩
      · left
        rfl)

end FaissIndexer
